import Mathlib

/-!
Verification development for the `autohand-acp` session-orchestration and
live-event relay engine (`src/acp-agent.ts`, `src/permission-server.ts`).

The TypeScript source is shallowly embedded: pure functions become Lean
functions, the per-session mutable state becomes explicit state passing, the
JS promise chains used by the prompt scheduler become a step relation, and
fallible operations return `Except`/`Option`.  JS strings are modeled as
`List Char`; the conversation log's bytes are likewise modeled at character
granularity (the contents at issue are ASCII, where one byte is one
character).
-/

namespace AutohandAcp

/-- JS strings (and the byte contents of the conversation log) are modeled as
lists of characters. -/
abbrev Str := List Char

/-! ### Association-list maps and sets

`Map` objects of the source (`session.toolCalls`, `session.toolCallOutputs`,
the agent's `sessions` map, the heap of array references) are embedded as
association lists; `Set` objects as plain lists of keys. -/

/-- Lookup in an association list, first binding wins (models `Map.get`). -/
def lookupA {κ α : Type} [DecidableEq κ] : List (κ × α) → κ → Option α
  | [], _ => none
  | (k, v) :: rest, key => if k = key then some v else lookupA rest key

/-- Insert/overwrite a binding (models `Map.set`). -/
def insertA {κ α : Type} [DecidableEq κ] (m : List (κ × α)) (key : κ) (v : α) :
    List (κ × α) :=
  (key, v) :: m

/-- Remove a binding (models `Map.delete`). -/
def eraseA {κ α : Type} [DecidableEq κ] (m : List (κ × α)) (key : κ) :
    List (κ × α) :=
  m.filter (fun p => p.1 ≠ key)

/-- Update the value bound to `key` in place (models mutating the object that
`Map.get(key)` returns, leaving every other binding untouched). -/
def updateA {κ α : Type} [DecidableEq κ] : List (κ × α) → κ → (α → α) →
    List (κ × α)
  | [], _, _ => []
  | (k, v) :: rest, key, f =>
    if k = key then (k, f v) :: rest else (k, v) :: updateA rest key f

/-- Add a key to a set (models `Set.add`). -/
def addS (s : List String) (key : String) : List String :=
  if key ∈ s then s else key :: s

/-- Remove a key from a set (models `Set.delete`). -/
def eraseS (s : List String) (key : String) : List String :=
  s.filter (fun k => k ≠ key)

/-! ### Text chunking (`chunkText`, acp-agent.ts)

`MAX_UPDATE_CHUNK = 4000` bounds the size of any single outbound notification.
-/

/-- `MAX_UPDATE_CHUNK` from acp-agent.ts. -/
def MAX_UPDATE_CHUNK : Nat := 4000

/-- Slicing loop of `chunkText`, structurally recursive on a fuel bounding
the number of slices; any fuel at least `text.length` is enough when
`maxSize` is positive (each slice removes `maxSize` characters). -/
def chunkLoop (maxSize : Nat) : Nat → Str → List Str
  | 0, text => [text]
  | fuel + 1, text =>
    if text.length ≤ maxSize then [text]
    else text.take maxSize :: chunkLoop maxSize fuel (text.drop maxSize)

/-- Embedding of `chunkText(text, maxSize)`: a text that fits in `maxSize`
characters is returned as a single chunk, otherwise it is cut into
consecutive slices of `maxSize` characters.  The JS loop never terminates
for `maxSize = 0` on a nonempty text; the function is only ever called with
`MAX_UPDATE_CHUNK = 4000`, and the embedding's fuel (ample for any positive
`maxSize`) totalizes that unused case. -/
def chunkText (text : Str) (maxSize : Nat) : List Str :=
  chunkLoop maxSize text.length text

/-! ### Outbound notification shapes (`SessionNotification.update`)

Only the fields the specification speaks about are carried: the tool-call id,
the status, the display data, and the text payloads. -/

/-- Tool-call status values of the protocol. -/
inductive Status
  | pending
  | inProgress
  | completed
  | failed
deriving DecidableEq, Repr

/-- Capability kinds from `TOOL_KIND_MAP` plus the protocol's `other`. -/
inductive ToolKind
  | read
  | search
  | edit
  | move
  | delete
  | execute
  | think
  | other
deriving DecidableEq, Repr

/-- One entry of a `plan` notification. -/
structure PlanEntry where
  content : String
  status : String
  priority : String
deriving DecidableEq, Repr

/-- The `_meta.stream` tag of an output-delta message. -/
inductive StreamTag
  | stdout
  | stderr
deriving DecidableEq, Repr

/-- Outbound `sessionUpdate` notification payloads.  `terminalOut` is the
`_meta.terminal_output` data of a live-terminal delta update. -/
inductive Notif
  | toolCall (toolCallId : String) (status : Status) (title : String)
      (kind : ToolKind)
  | toolCallUpdate (toolCallId : String) (status : Status)
      (content : Option Str) (terminalOut : Option (Str × StreamTag))
  | planUpdate (entries : List PlanEntry)
  | agentMessageChunk (text : Str)
  | agentThoughtChunk (text : Str)
deriving DecidableEq, Repr

/-- Embedding of `queueTextUpdate`: the text is chunked with
`chunkText(text, MAX_UPDATE_CHUNK)` and one `agent_message_chunk` notification
is appended to the session's update queue per chunk, in order. -/
def queueTextUpdateNotes (text : Str) : List Notif :=
  (chunkText text MAX_UPDATE_CHUNK).map Notif.agentMessageChunk

/-! ### Permission bridge (`permission-server.ts`)

The HTTP plumbing is out of scope; the embedded functions are the decision
logic `requestPermissionFromClient` and `requestPromptFromClient`.  The
client's `requestPermission` round trip is modeled by a `ClientOutcome`
parameter (`errorThrown` is the rejected-promise case caught by the
`try`/`catch`).  Each function returns a flag recording whether the client
round trip was performed at all, together with the decision. -/

/-- Outcome of the `client.requestPermission` round trip. -/
inductive ClientOutcome
  | cancelled
  | selected (optionId : String)
  | errorThrown
deriving DecidableEq, Repr

/-- The `type` discriminator of a generic prompt request. -/
inductive PromptType
  | confirm
  | select
  | input
deriving DecidableEq, Repr

/-- One offered choice of a `select` prompt. -/
structure Choice where
  name : String
  message : String
deriving DecidableEq, Repr

/-- A generic prompt request (`PromptRequest` in permission-server.ts). -/
structure PromptReq where
  type : PromptType
  message : String
  choices : Option (List Choice)
deriving DecidableEq, Repr

/-- The decision returned to the subprocess (`PromptResponse`). -/
structure PromptDecision where
  allowed : Bool
  choice : Option String
  value : Option String
  reason : Option String
deriving DecidableEq, Repr

/-- The `{allowed: false, reason: "external_denied"}` decision. -/
def deniedDecision : PromptDecision :=
  ⟨false, none, none, some "external_denied"⟩

/-- Embedding of `requestPromptFromClient`.  The returned `Bool` is `true`
exactly when the client round trip was performed. -/
def requestPromptFromClient (req : PromptReq) (client : ClientOutcome) :
    Bool × PromptDecision :=
  if req.type = PromptType.input then (false, deniedDecision)
  else if req.type = PromptType.select ∧ (req.choices.getD []).isEmpty then
    (false, deniedDecision)
  else
    (true,
      match client with
      | .errorThrown => deniedDecision
      | .cancelled => deniedDecision
      | .selected selectedId =>
        if req.type = PromptType.confirm then
          if selectedId = "allow" then
            ⟨true, none, none, some "external_approved"⟩
          else deniedDecision
        else ⟨true, some selectedId, none, some "external_approved"⟩)

/-- The decision returned for a tool-permission request. -/
structure PermDecision where
  allowed : Bool
  reason : String
deriving DecidableEq, Repr

/-- Embedding of `requestPermissionFromClient`.  The client round trip is
always performed (the returned flag is always `true`). -/
def requestPermissionFromClient (client : ClientOutcome) :
    Bool × PermDecision :=
  (true,
    match client with
    | .errorThrown => ⟨false, "external_denied"⟩
    | .cancelled => ⟨false, "external_denied"⟩
    | .selected selectedId =>
      let allowed := selectedId == "allow_once" || selectedId == "allow_always"
      ⟨allowed, if allowed then "external_approved" else "external_denied"⟩)

/-! ### Event translator (`handleToolCallStart` / `handleToolCallOutputDelta`
/ `handleToolCallResult`, acp-agent.ts)

The per-session tool-call bookkeeping fields of `SessionState` are gathered
in `SessTools`; each handler maps old state and event to new state plus the
notifications it enqueues, in order.  `randomUUID()` calls are modeled by a
`fresh` identifier supplied with each event. -/

/-- Does `pat` occur as a contiguous run inside the second list? -/
def containsSeq (pat : Str) : Str → Bool
  | [] => pat.isEmpty
  | c :: cs => List.isPrefixOf pat (c :: cs) || containsSeq pat cs

/-- Case-insensitive test for the `/error|failed|exception/i` regular
expression of `handleToolCallResult`: the pattern matches exactly when one of
the three (ASCII) literals occurs in the text ignoring case. -/
def matchesErrorPattern (s : Str) : Bool :=
  let l := s.map Char.toLower
  containsSeq "error".toList l || containsSeq "failed".toList l ||
    containsSeq "exception".toList l

/-- `TOOL_KIND_MAP` from acp-agent.ts. -/
def toolKindMap : String → Option ToolKind
  | "read_file" => some .read
  | "list_tree" => some .read
  | "file_stats" => some .read
  | "search" => some .search
  | "search_with_context" => some .search
  | "semantic_search" => some .search
  | "write_file" => some .edit
  | "append_file" => some .edit
  | "apply_patch" => some .edit
  | "format_file" => some .edit
  | "replace_in_file" => some .edit
  | "search_replace" => some .edit
  | "create_directory" => some .edit
  | "rename_path" => some .move
  | "copy_path" => some .move
  | "delete_path" => some .delete
  | "run_command" => some .execute
  | "git_status" => some .execute
  | "git_diff" => some .execute
  | "git_commit" => some .execute
  | "git_add" => some .execute
  | "git_init" => some .execute
  | "git_log" => some .execute
  | "git_list_untracked" => some .execute
  | "todo_write" => some .think
  | "plan" => some .think
  | "smart_context_cropper" => some .think
  | "save_memory" => some .other
  | "recall_memory" => some .other
  | "tools_registry" => some .other
  | _ => none

/-- `TOOL_DISPLAY_NAMES` from acp-agent.ts. -/
def toolDisplayNames : String → Option String
  | "read_file" => some "Read"
  | "list_tree" => some "List"
  | "file_stats" => some "Stats"
  | "search" => some "Search"
  | "search_with_context" => some "Search"
  | "semantic_search" => some "Search"
  | "write_file" => some "Write"
  | "append_file" => some "Append"
  | "apply_patch" => some "Patch"
  | "format_file" => some "Format"
  | "replace_in_file" => some "Replace"
  | "search_replace" => some "Replace"
  | "create_directory" => some "Create"
  | "rename_path" => some "Rename"
  | "copy_path" => some "Copy"
  | "delete_path" => some "Delete"
  | "run_command" => some "Run"
  | "git_status" => some "Git Status"
  | "git_diff" => some "Git Diff"
  | "git_commit" => some "Git Commit"
  | "git_add" => some "Git Add"
  | "git_init" => some "Git Init"
  | "git_log" => some "Git Log"
  | "git_list_untracked" => some "Git Untracked"
  | "todo_write" => some "Todo"
  | "plan" => some "Plan"
  | "smart_context_cropper" => some "Thinking"
  | "save_memory" => some "Save Memory"
  | "recall_memory" => some "Recall Memory"
  | "tools_registry" => some "Tools"
  | _ => none

/-- JS truthiness for an optional string: absent and `""` are both falsy. -/
def truthyStr : Option String → Option String
  | some s => if s = "" then none else some s
  | none => none

/-- One task of a `todo_write` tool call's arguments. -/
structure TodoTask where
  id : String
  title : String
  status : Option String
  description : Option String
deriving DecidableEq, Repr

/-- The argument fields of a tool call that the translator inspects
(everything else in `args` is never read). `none` at the top level models an
absent or non-object `args`. -/
structure ToolArgs where
  path : Option String
  query : Option String
  command : Option String
  tasks : Option (List TodoTask)
  notes : Option String
deriving DecidableEq, Repr

/-- `buildToolTitle` from acp-agent.ts. -/
def buildToolTitle (tool : String) (args : Option ToolArgs) : String :=
  let displayName := (toolDisplayNames tool).getD tool
  match args with
  | none => displayName
  | some a =>
    match truthyStr a.path with
    | some p => displayName ++ " " ++ p
    | none =>
      match truthyStr a.query with
      | some q => displayName ++ " \"" ++ q ++ "\""
      | none =>
        match truthyStr a.command with
        | some c => displayName ++ " " ++ c
        | none => displayName

/-- `normalizePlanStatus` from acp-agent.ts. -/
def normalizePlanStatus : Option String → String
  | some "completed" => "completed"
  | some "in_progress" => "in_progress"
  | _ => "pending"

/-- `planFromTodo` from acp-agent.ts. -/
def planFromTodo (args : Option ToolArgs) : Option (List PlanEntry) :=
  match args with
  | none => none
  | some a =>
    match a.tasks with
    | none => none
    | some tasks =>
      some (tasks.map (fun task =>
        { content :=
            match truthyStr task.description with
            | some d => task.title ++ " — " ++ d
            | none => task.title
          status := normalizePlanStatus task.status
          priority := "medium" }))

/-- `planFromNotes` from acp-agent.ts. -/
def planFromNotes (args : Option ToolArgs) : Option (List PlanEntry) :=
  match args with
  | none => none
  | some a =>
    match truthyStr a.notes with
    | none => none
    | some notes =>
      some [{ content := notes, status := "in_progress", priority := "low" }]

/-- The `ToolCall` record the translator stores in `session.toolCalls`. -/
structure ToolCallView where
  toolCallId : String
  title : String
  kind : ToolKind
  status : Status
  usesTerminalContent : Bool
deriving DecidableEq, Repr

/-- The tool-call bookkeeping fields of `SessionState`. -/
structure SessTools where
  toolCalls : List (String × ToolCallView)
  toolCallOutputs : List (String × Str)
  streamingToolCalls : List String
  terminalToolCalls : List String
deriving DecidableEq, Repr

/-- The bookkeeping fields of a freshly created session. -/
def initTools : SessTools := ⟨[], [], [], []⟩

/-- A `ToolCallRecord` found in an assistant message of the log. -/
structure ToolCallRec where
  id : Option String
  tool : Option String
  args : Option ToolArgs
deriving DecidableEq, Repr

/-- The fields of a role-`tool` `SessionMessage` that the handlers read. -/
structure ToolMsg where
  tool_call_id : Option String
  name : Option String
  content : Option Str
deriving DecidableEq, Repr

/-- The `plan` notifications a tool-call start additionally emits for the
two plan-producing tools (`todo_write`, `plan`). -/
def planNotifsFor (tool : String) (args : Option ToolArgs) : List Notif :=
  if tool == "todo_write" then
    match planFromTodo args with
    | some entries => [Notif.planUpdate entries]
    | none => []
  else if tool == "plan" then
    match planFromNotes args with
    | some entries => [Notif.planUpdate entries]
    | none => []
  else []

/-- Embedding of `handleToolCallStart`: stores a record, registers
client-terminal bookkeeping, emits a `tool_call` notification and, for the
two plan-producing tools, a `plan` notification. -/
def handleToolCallStart (clientTerminal : Bool) (st : SessTools)
    (call : ToolCallRec) (fresh : String) : SessTools × List Notif :=
  let tool := call.tool.getD "tool"
  let toolCallId := call.id.getD fresh
  let kind := (toolKindMap tool).getD .other
  let title := buildToolTitle tool call.args
  let isCommand : Bool := tool == "run_command"
  let supportsTerm : Bool := isCommand && clientTerminal
  let status := if isCommand then Status.inProgress else Status.pending
  let view : ToolCallView := ⟨toolCallId, title, kind, status, supportsTerm⟩
  let st1 : SessTools :=
    { st with
      toolCalls := insertA st.toolCalls toolCallId view
      terminalToolCalls :=
        if supportsTerm then addS st.terminalToolCalls toolCallId
        else st.terminalToolCalls }
  (st1, Notif.toolCall toolCallId status title kind
    :: planNotifsFor tool call.args)

/-- Embedding of `handleToolCallOutputDelta`: an empty chunk is dropped;
otherwise the call is marked streaming, a synthetic record is created for an
unknown id carrying a (truthy) name, and the chunk is either forwarded as
terminal output or appended to the call's accumulated buffer, in both cases
with an `in_progress` update. -/
def handleToolCallOutputDelta (st : SessTools) (msg : ToolMsg)
    (stream : StreamTag) (fresh : String) : SessTools × List Notif :=
  let toolCallId := msg.tool_call_id.getD fresh
  let chunk := msg.content.getD []
  if chunk = [] then (st, [])
  else
    let fallback : Option ToolCallView :=
      if (lookupA st.toolCalls toolCallId).isSome then none
      else
        match truthyStr msg.name with
        | some nm =>
          some ⟨toolCallId, nm, (toolKindMap nm).getD .other, .inProgress,
            false⟩
        | none => none
    let newToolCalls :=
      match fallback with
      | some fb => insertA st.toolCalls toolCallId fb
      | none => st.toolCalls
    let fallbackNotifs : List Notif :=
      match fallback with
      | some fb => [Notif.toolCall toolCallId fb.status fb.title fb.kind]
      | none => []
    let st2 : SessTools :=
      { toolCalls := newToolCalls
        toolCallOutputs := st.toolCallOutputs
        streamingToolCalls := addS st.streamingToolCalls toolCallId
        terminalToolCalls := st.terminalToolCalls }
    if st2.terminalToolCalls.contains toolCallId then
      (st2, fallbackNotifs ++
        [Notif.toolCallUpdate toolCallId .inProgress none (some (chunk, stream))])
    else
      let current := (lookupA st2.toolCallOutputs toolCallId).getD []
      let next := current ++ chunk
      let st3 : SessTools :=
        { st2 with toolCallOutputs := insertA st2.toolCallOutputs toolCallId next }
      (st3, fallbackNotifs ++
        [Notif.toolCallUpdate toolCallId .inProgress (some next) none])

/-- Embedding of `handleToolCallResult`: classifies the result as
`failed`/`completed` by the error pattern, creates a synthetic record for an
unknown id carrying a (truthy) name, emits the terminal `tool_call_update`
and clears the call's buffered output and streaming/terminal bookkeeping. -/
def handleToolCallResult (st : SessTools) (msg : ToolMsg) (fresh : String) :
    SessTools × List Notif :=
  let toolCallId := msg.tool_call_id.getD fresh
  let outputText := msg.content.getD []
  let failed := matchesErrorPattern outputText
  let isStreaming : Bool := st.streamingToolCalls.contains toolCallId
  let usesTerminal : Bool := st.terminalToolCalls.contains toolCallId
  let bufferedOutput := lookupA st.toolCallOutputs toolCallId
  let fallback : Option ToolCallView :=
    if (lookupA st.toolCalls toolCallId).isSome then none
    else
      match truthyStr msg.name with
      | some nm =>
        some ⟨toolCallId, nm, (toolKindMap nm).getD .other, .completed, false⟩
      | none => none
  let newToolCalls :=
    match fallback with
    | some fb => insertA st.toolCalls toolCallId fb
    | none => st.toolCalls
  let fallbackNotifs : List Notif :=
    match fallback with
    | some fb => [Notif.toolCall toolCallId fb.status fb.title fb.kind]
    | none => []
  let contentText : Option Str :=
    if usesTerminal && isStreaming then none
    else if isStreaming then some (bufferedOutput.getD outputText)
    else some outputText
  let content : Option Str :=
    contentText.bind (fun t => if t = [] then none else some t)
  let status := if failed then Status.failed else Status.completed
  let st2 : SessTools :=
    { toolCalls := newToolCalls
      toolCallOutputs := eraseA st.toolCallOutputs toolCallId
      streamingToolCalls := eraseS st.streamingToolCalls toolCallId
      terminalToolCalls := eraseS st.terminalToolCalls toolCallId }
  (st2, fallbackNotifs ++ [Notif.toolCallUpdate toolCallId status content none])

/-- One conversation-log event as dispatched by `handleSessionMessage`:
an assistant tool-call start, a role-`tool` output delta (stream-tagged), or
a role-`tool` result.  `fresh` supplies the `randomUUID()` of that event. -/
inductive Event
  | start (call : ToolCallRec) (fresh : String)
  | delta (msg : ToolMsg) (stream : StreamTag) (fresh : String)
  | result (msg : ToolMsg) (fresh : String)
deriving DecidableEq, Repr

/-- Dispatch of `handleSessionMessage` to the three handlers. -/
def handleEvent (clientTerminal : Bool) (st : SessTools) :
    Event → SessTools × List Notif
  | .start call fresh => handleToolCallStart clientTerminal st call fresh
  | .delta msg stream fresh => handleToolCallOutputDelta st msg stream fresh
  | .result msg fresh => handleToolCallResult st msg fresh

/-- Process a list of events in file order, concatenating the notifications
each one enqueues. -/
def processEvents (clientTerminal : Bool) (st : SessTools) :
    List Event → SessTools × List Notif
  | [] => (st, [])
  | e :: es =>
    let r1 := handleEvent clientTerminal st e
    let r2 := processEvents clientTerminal r1.1 es
    (r2.1, r1.2 ++ r2.2)

/-- The status a notification reports for tool call `id`, if any. -/
def notifStatusFor (id : String) : Notif → Option Status
  | .toolCall i s _ _ => if i = id then some s else none
  | .toolCallUpdate i s _ _ => if i = id then some s else none
  | _ => none

/-- The stream of statuses reported for tool call `id`. -/
def statusesFor (id : String) (ns : List Notif) : List Status :=
  ns.filterMap (notifStatusFor id)

/-- Position of a status along `pending → in_progress → {completed|failed}`. -/
def statusRank : Status → Nat
  | .pending => 0
  | .inProgress => 1
  | .completed => 2
  | .failed => 2

/-! ### Conversation tailer (`readConversation`, acp-agent.ts)

The log file is a growing character sequence; `TailState` carries the
session's read offset and unterminated partial-line remainder.  One
`readConversation` call reads at most `CHUNK_SIZE` characters starting at
the offset, advances the offset by exactly the amount read, splits
remainder-plus-slice on newlines, keeps the trailing (unterminated) segment
as the new remainder, and emits one event per complete nonblank trimmed
line (`JSON.parse` consumes the line text; malformed lines are skipped, an
aspect outside these claims). -/

/-- The 64 KB read bound of `readConversation`. -/
def CHUNK_SIZE : Nat := 64 * 1024

/-- `conversationOffset` and `conversationRemainder` of `SessionState`. -/
structure TailState where
  conversationOffset : Nat
  conversationRemainder : Str
deriving DecidableEq, Repr

/-- `combined.split("\n")`: split on newlines, keeping empty segments; the
result is always nonempty. -/
def splitOnNl : Str → List Str
  | [] => [[]]
  | c :: cs =>
    match splitOnNl cs with
    | [] => [[]]
    | l :: ls => if c = '\n' then [] :: l :: ls else (c :: l) :: ls

/-- Rejoin line segments with newlines (inverse of `splitOnNl`). -/
def joinNl : List Str → Str
  | [] => []
  | [l] => l
  | l :: l' :: ls => l ++ '\n' :: joinNl (l' :: ls)

/-- `line.trim()`. -/
def trimStr (s : Str) : Str :=
  ((s.dropWhile Char.isWhitespace).reverse.dropWhile Char.isWhitespace).reverse

/-- A complete line becomes an event unless blank after trimming. -/
def lineEvent (l : Str) : Option Str :=
  let t := trimStr l
  if t = [] then none else some t

/-- Embedding of one `readConversation` call against the current file
contents: nothing happens when no bytes beyond the offset exist; otherwise a
bounded slice is read from the offset, the offset advances by exactly the
bytes read, and the remainder-buffered lines are processed. -/
def readConversation (file : Str) (st : TailState) : TailState × List Str :=
  if file.length ≤ st.conversationOffset then (st, [])
  else
    let bytesToRead := min (file.length - st.conversationOffset) CHUNK_SIZE
    let slice := (file.drop st.conversationOffset).take bytesToRead
    let combined := st.conversationRemainder ++ slice
    let lines := splitOnNl combined
    ({ conversationOffset := st.conversationOffset + bytesToRead
       conversationRemainder := lines.getLastD [] },
      lines.dropLast.filterMap lineEvent)

/-- The single-read contract of the tailer: the offset advances by exactly
the number of bytes read (hence monotonically), the consumed characters are
exactly partitioned into the processed raw lines plus the new remainder (no
character lost or duplicated), and the emitted events are exactly the
nonblank trimmed processed lines. -/
def TailerReadSpec (file : Str) (st : TailState) : Prop :=
  let bytesRead := min (file.length - st.conversationOffset) CHUNK_SIZE
  let slice := (file.drop st.conversationOffset).take bytesRead
  let combined := st.conversationRemainder ++ slice
  let res := readConversation file st
  res.1.conversationOffset = st.conversationOffset + bytesRead
  ∧ st.conversationOffset ≤ res.1.conversationOffset
  ∧ joinNl ((splitOnNl combined).dropLast ++ [res.1.conversationRemainder])
      = combined
  ∧ res.2 = (splitOnNl combined).dropLast.filterMap lineEvent

/-! ### Conversation-log discovery (`waitForConversationPath`, acp-agent.ts)

`polls` records the filesystem state each successive polling attempt
observes (the 200 ms sleeps between attempts are abstracted into the
succession of observations); the loop is bounded at 40 attempts.  The
session `cwd` is absolute (validated at session creation), so
`path.resolve(cwd)` is modeled as `cwd` itself. -/

/-- One entry of the session index file. -/
structure IndexEntry where
  id : String
  projectPath : String
  createdAt : String
deriving DecidableEq, Repr

/-- What one polling attempt observes: the abort-signal state, the parsed
session index (empty when missing/unreadable), and whether the sessions
directory exists together with its subdirectory names. -/
structure PollObservation where
  aborted : Bool
  indexSessions : List IndexEntry
  sessionsDirExists : Bool
  dirEntries : List String
deriving DecidableEq, Repr

/-- `path.join(autohandHome, "sessions", id, "conversation.jsonl")`. -/
def conversationPathOf (autohandHome id : String) : String :=
  autohandHome ++ "/sessions/" ++ id ++ "/conversation.jsonl"

/-- Insertion step of the stable descending sort on `createdAt` used to pick
the latest candidate. -/
def insertByCreatedAtDesc (x : IndexEntry) : List IndexEntry → List IndexEntry
  | [] => [x]
  | y :: ys =>
    if y.createdAt < x.createdAt then x :: y :: ys
    else y :: insertByCreatedAtDesc x ys

/-- Stable descending sort on `createdAt` (the JS
`sort((a, b) => b.createdAt.localeCompare(a.createdAt))`). -/
def sortByCreatedAtDesc : List IndexEntry → List IndexEntry
  | [] => []
  | x :: xs => insertByCreatedAtDesc x (sortByCreatedAtDesc xs)

/-- The index entries that qualify as candidates: id absent from the
snapshot and working directory equal to the session's. -/
def discoverCandidates (resolvedCwd : String) (snapshot : List String)
    (obs : PollObservation) : List IndexEntry :=
  obs.indexSessions.filter
    (fun s => !(snapshot.contains s.id) && s.projectPath == resolvedCwd)

/-- One polling attempt of `waitForConversationPath`: first the index is
filtered for fresh entries with matching working directory, the latest by
`createdAt` winning; when no index candidate exists, the fallback scans the
sessions directory for any subdirectory whose name is not in the snapshot. -/
def discoverStep (autohandHome resolvedCwd : String) (snapshot : List String)
    (obs : PollObservation) : Option String :=
  match sortByCreatedAtDesc (discoverCandidates resolvedCwd snapshot obs) with
  | latest :: _ => some (conversationPathOf autohandHome latest.id)
  | [] =>
    if obs.sessionsDirExists then
      match obs.dirEntries.find? (fun n => !(snapshot.contains n)) with
      | some n => some (conversationPathOf autohandHome n)
      | none => none
    else none

/-- The bounded polling loop (fuel counts remaining attempts). -/
def waitForConversationPathAux (autohandHome cwd : String)
    (snapshot : List String) : Nat → List PollObservation → Option String
  | 0, _ => none
  | _ + 1, [] => none
  | fuel + 1, obs :: rest =>
    if obs.aborted then none
    else
      match discoverStep autohandHome cwd snapshot obs with
      | some p => some p
      | none => waitForConversationPathAux autohandHome cwd snapshot fuel rest

/-- Embedding of `waitForConversationPath`: at most 40 polling attempts. -/
def waitForConversationPath (autohandHome cwd : String)
    (snapshot : List String) (polls : List PollObservation) : Option String :=
  waitForConversationPathAux autohandHome cwd snapshot 40 polls

/-! ### Session registry (`sessions` map of `AutohandAcpAgent`)

JS object aliasing is made explicit: the mutable arrays a session holds
(`history`, `availableCommands`) live in heaps indexed by references, so that
"copy by value" (`[...parent.history]`) versus sharing is observable.  Scalar
fields (`modeId`, `modelId`, flags) live inline on the per-session record,
one record per registry entry, as in the source where every `sessions.set`
stores a fresh object literal.  Runtime-only fields (promise queues, process
handles, the tool-call maps embedded separately above) are omitted. -/

/-- One history turn (`SessionMessage` as stored in `session.history`). -/
structure HistMsg where
  role : String
  content : String
deriving DecidableEq, Repr

/-- One session config option (`id` and its `currentValue`; the static
display fields are never mutated). -/
structure ConfigOpt where
  id : String
  currentValue : String
deriving DecidableEq, Repr

/-- The registry-visible fields of `SessionState`. -/
structure SessionRec where
  cwd : String
  historyRef : Nat
  commandsRef : Nat
  cancelled : Bool
  permissionServerActive : Bool
  modeId : String
  modelId : String
  configOptions : List ConfigOpt
  parentSessionId : Option String
deriving DecidableEq, Repr

/-- The agent's session map plus the heaps of array objects. `nextRef` is the
allocation counter: references below it are allocated. -/
structure Registry where
  sessions : List (String × SessionRec)
  histories : List (Nat × List HistMsg)
  commandLists : List (Nat × List String)
  nextRef : Nat
deriving DecidableEq, Repr

/-- Invalid-params failures thrown by the registry operations. -/
inductive AcpError
  | unknownSession
  | unknownConfigOption
deriving DecidableEq, Repr

/-- History array observed for a session (empty when absent). -/
def historyOf (reg : Registry) (sid : String) : Option (List HistMsg) :=
  (lookupA reg.sessions sid).map
    (fun r => (lookupA reg.histories r.historyRef).getD [])

/-- Command array observed for a session. -/
def commandsOf (reg : Registry) (sid : String) : Option (List String) :=
  (lookupA reg.sessions sid).map
    (fun r => (lookupA reg.commandLists r.commandsRef).getD [])

/-- Mode observed for a session. -/
def modeOf (reg : Registry) (sid : String) : Option String :=
  (lookupA reg.sessions sid).map (fun r => r.modeId)

/-- Model observed for a session. -/
def modelOf (reg : Registry) (sid : String) : Option String :=
  (lookupA reg.sessions sid).map (fun r => r.modelId)

/-- Embedding of `unstable_forkSession`: an absent parent id fails with the
invalid-params `UnknownSession` error and creates nothing; otherwise fresh
array references are allocated holding element-wise copies of the parent's
history and command list (`[...parentSession.history]`,
`[...parentSession.availableCommands]`) and a new session record is inserted
carrying the parent's mode, model and config values. -/
def forkSession (reg : Registry) (parentId : String) (cwd : String)
    (newId : String) : Except AcpError (Registry × String) :=
  match lookupA reg.sessions parentId with
  | none => .error .unknownSession
  | some parent =>
    let parentHistory := (lookupA reg.histories parent.historyRef).getD []
    let parentCommands := (lookupA reg.commandLists parent.commandsRef).getD []
    let histRef := reg.nextRef
    let cmdRef := reg.nextRef + 1
    let newRec : SessionRec :=
      { cwd := cwd
        historyRef := histRef
        commandsRef := cmdRef
        cancelled := false
        permissionServerActive := false
        modeId := parent.modeId
        modelId := parent.modelId
        configOptions := parent.configOptions.map (fun o => o)
        parentSessionId := some parentId }
    .ok
      ({ reg with
          sessions := insertA reg.sessions newId newRec
          histories := insertA reg.histories histRef parentHistory
          commandLists := insertA reg.commandLists cmdRef parentCommands
          nextRef := reg.nextRef + 2 }, newId)

/-- Embedding of `setSessionMode`: unknown session id fails with
invalid-params; otherwise `session.modeId = modeId` in place. -/
def setSessionMode (reg : Registry) (sid modeId : String) :
    Except AcpError Registry :=
  match lookupA reg.sessions sid with
  | none => .error .unknownSession
  | some _ =>
    .ok { reg with
      sessions := updateA reg.sessions sid (fun r => { r with modeId := modeId }) }

/-- Embedding of `unstable_setSessionModel`. -/
def setSessionModel (reg : Registry) (sid modelId : String) :
    Except AcpError Registry :=
  match lookupA reg.sessions sid with
  | none => .error .unknownSession
  | some _ =>
    .ok { reg with
      sessions := updateA reg.sessions sid (fun r => { r with modelId := modelId }) }

/-- `option.currentValue = newValue` on the first option with the given id. -/
def setConfigValue (configId value : String) : List ConfigOpt → List ConfigOpt
  | [] => []
  | o :: os =>
    if o.id = configId then { o with currentValue := value } :: os
    else o :: setConfigValue configId value os

/-- Embedding of `unstable_setSessionConfigOption`: unknown session id fails
with invalid-params; an unknown config id fails likewise; otherwise the
option's current value is mutated in place. -/
def setSessionConfigOption (reg : Registry) (sid configId value : String) :
    Except AcpError Registry :=
  match lookupA reg.sessions sid with
  | none => .error .unknownSession
  | some s =>
    if (s.configOptions.find? (fun o => o.id == configId)).isSome then
      .ok { reg with
        sessions := updateA reg.sessions sid (fun r =>
          { r with configOptions := setConfigValue configId value r.configOptions }) }
    else .error .unknownConfigOption

/-- `session.history.push(entry)`: in-place mutation of the history array a
session references. -/
def pushHistory (reg : Registry) (sid : String) (msg : HistMsg) : Registry :=
  match lookupA reg.sessions sid with
  | none => reg
  | some r =>
    { reg with
      histories := updateA reg.histories r.historyRef (fun h => h ++ [msg]) }

/-- In-place mutation of the command array a session references (models any
later push into `availableCommands`). -/
def pushCommand (reg : Registry) (sid : String) (cmd : String) : Registry :=
  match lookupA reg.sessions sid with
  | none => reg
  | some r =>
    { reg with
      commandLists := updateA reg.commandLists r.commandsRef (fun c => c ++ [cmd]) }

/-- Embedding of `cancel`: an unknown session id returns normally without
touching anything; a known session gets its cancelled flag set and its
permission server torn down (process signalling is an external effect). -/
def cancel (reg : Registry) (sid : String) : Registry :=
  match lookupA reg.sessions sid with
  | none => reg
  | some _ =>
    { reg with
      sessions := updateA reg.sessions sid (fun r =>
        { r with cancelled := true, permissionServerActive := false }) }

/-- Heap well-formedness: every array reference a session holds was
allocated, i.e. lies below the allocation counter. -/
def RegWF (reg : Registry) : Prop :=
  ∀ sid r, lookupA reg.sessions sid = some r →
    r.historyRef < reg.nextRef ∧ r.commandsRef < reg.nextRef

/-! ### Prompt execution outcome (`executePrompt`, acp-agent.ts)

`executePrompt` (spawn path) always returns a `PromptResponse`; the
branches that decide the stop reason and the trailing error notifications
are embedded over the observable outcome of the run.  Failures of the
client notification round trips are outside the claims' outcome space. -/

/-- Stop reasons a prompt execution can resolve with. -/
inductive StopReason
  | endTurn
  | cancelled
deriving DecidableEq, Repr

/-- The subprocess exit observation: `code`/`signal` from the close event
(`none` models JS `null`), and the spawn error message when launch failed. -/
structure ExitResult where
  code : Option Int
  signal : Option String
  launchError : Option String
deriving DecidableEq, Repr

/-- The observable outcome of one prompt execution on the spawn path:
whether the workspace directory exists, whether the text was a slash command
handled in-process, the session's cancelled flag as read after subprocess
exit, and the exit observation. -/
structure PromptRunObs where
  workspaceExists : Bool
  slashHandled : Bool
  cancelledAtEnd : Bool
  exit : ExitResult
  stderrExcerpt : String
deriving DecidableEq, Repr

/-- The distinct trailing text notifications `executePrompt` can emit. -/
inductive TrailingNote
  | workspaceNotFound
  | launchFailure (message : String)
  | abnormalExit (code : Int) (stderrExcerpt : String)
  | signalTermination (signal : String) (stderrExcerpt : String)
deriving DecidableEq, Repr

/-- Embedding of `executePrompt`'s resolution logic: a missing workspace or a
handled slash command resolve `end_turn` early; after the subprocess exits,
a set cancelled flag resolves `cancelled` (before any error reporting);
otherwise launch failure, non-zero exit code and termination-by-signal each
contribute a trailing notification and the execution resolves `end_turn`.
Every path returns; no outcome escapes as an exception. -/
def executePromptResult (obs : PromptRunObs) : StopReason × List TrailingNote :=
  if !obs.workspaceExists then (.endTurn, [.workspaceNotFound])
  else if obs.slashHandled then (.endTurn, [])
  else if obs.cancelledAtEnd then (.cancelled, [])
  else
    let launchNotes : List TrailingNote :=
      match obs.exit.launchError with
      | some msg => [.launchFailure msg]
      | none => []
    let codeNotes : List TrailingNote :=
      match obs.exit.code with
      | some c => if c ≠ 0 then [.abnormalExit c obs.stderrExcerpt] else []
      | none => []
    let signalNotes : List TrailingNote :=
      match obs.exit.signal with
      | some sig => [.signalTermination sig obs.stderrExcerpt]
      | none => []
    (.endTurn, launchNotes ++ codeNotes ++ signalNotes)

/-! ### Prompt scheduler (`prompt` / `queueSessionUpdate` / the raced tail
drain, acp-agent.ts)

`prompt` chains every new execution onto the session's `promptQueue`
(`thisPrompt = previousPrompt.then(() => executePrompt(...))`) and replaces
the queue by `thisPrompt.catch(...)`, so execution `k+1` is the
continuation of execution `k`'s settled promise and a rejection never
poisons the chain.  Notifications go through the per-session `updateQueue`,
delivered strictly in enqueue order.  An execution does not, however, wait
unboundedly for its final tail drain: `executePrompt` races the drain
against a two-second sleep (`Promise.race([tailPromise, sleep(2000)])`,
acp-agent.ts:856-859) and a losing drain is not cancelled — it keeps
running in the background, still enqueueing that prompt's notifications
while the next queued execution proceeds.  The step relation models both
outcomes of the race: `settle` (the drain delivered everything before the
promise settled) and `settleTimeout` (the promise settled first; the
undelivered rest of the drain becomes a background residue that `drain`
steps flush at arbitrary later points, interleaving with later prompts). -/

/-- One queued prompt execution: the notifications it will enqueue, in
order, and whether its `executePrompt` promise rejects. -/
structure PromptExec where
  notes : List Notif
  rejects : Bool
deriving DecidableEq, Repr

/-- Scheduler state of one session: `execs` is the fixed list of executions
in `prompt`-call order, `current` the index of the first unsettled
execution, `emitted` how many of its notifications the current execution
has enqueued, `residues` the still-running tail drains of already-settled
executions (prompt index and remaining notifications), and `delivered` the
client-observed stream, each notification tagged with the index of the
prompt it is attributable to. -/
structure SchedState where
  execs : List PromptExec
  current : Nat
  emitted : Nat
  residues : List (Nat × List Notif)
  delivered : List (Nat × Notif)
deriving DecidableEq, Repr

/-- Steps of the promise chain with the raced tail drain.  Only the
execution at `current` emits new notifications (`emit`).  Its promise
settles either after its drain delivered everything (`settle`) or by the
two-second timeout with the drain incomplete (`settleTimeout`), in which
case the undelivered suffix keeps draining in the background; either way
the chain advances whether the execution resolved or rejected (the
`.catch` on the stored queue swallows failures).  A background residue
appends its next notification to the shared per-session update queue at
any time (`drain`). -/
inductive SchedStep : SchedState → SchedState → Prop
  | emit (s : SchedState) (e : PromptExec) (n : Notif)
      (he : s.execs[s.current]? = some e)
      (hn : e.notes[s.emitted]? = some n) :
      SchedStep s
        { s with
          emitted := s.emitted + 1
          delivered := s.delivered ++ [(s.current, n)] }
  | settle (s : SchedState) (e : PromptExec)
      (he : s.execs[s.current]? = some e)
      (hn : s.emitted = e.notes.length) :
      SchedStep s { s with current := s.current + 1, emitted := 0 }
  | settleTimeout (s : SchedState) (e : PromptExec)
      (he : s.execs[s.current]? = some e)
      (hn : s.emitted < e.notes.length) :
      SchedStep s
        { s with
          current := s.current + 1
          emitted := 0
          residues := s.residues ++ [(s.current, e.notes.drop s.emitted)] }
  | drain (s : SchedState) (pre post : List (Nat × List Notif)) (k : Nat)
      (n : Notif) (rest : List Notif)
      (hr : s.residues = pre ++ (k, n :: rest) :: post) :
      SchedStep s
        { s with
          residues := pre ++ (k, rest) :: post
          delivered := s.delivered ++ [(k, n)] }

/-- Steps of a run in which every final tail drain finishes within the
two-second bound, i.e. the drain side always wins the race: `settleTimeout`
never fires, so no background residue ever arises. -/
inductive SchedStepNT : SchedState → SchedState → Prop
  | emit (s : SchedState) (e : PromptExec) (n : Notif)
      (he : s.execs[s.current]? = some e)
      (hn : e.notes[s.emitted]? = some n) :
      SchedStepNT s
        { s with
          emitted := s.emitted + 1
          delivered := s.delivered ++ [(s.current, n)] }
  | settle (s : SchedState) (e : PromptExec)
      (he : s.execs[s.current]? = some e)
      (hn : s.emitted = e.notes.length) :
      SchedStepNT s { s with current := s.current + 1, emitted := 0 }

/-- Reachability under the scheduler steps. -/
def SchedSteps : SchedState → SchedState → Prop :=
  Relation.ReflTransGen SchedStep

/-- Reachability under drain-within-bound steps only. -/
def SchedStepsNT : SchedState → SchedState → Prop :=
  Relation.ReflTransGen SchedStepNT

/-- The delivered stream of executions `es` submitted starting at index `k`:
all of execution `k`'s notifications, then all of execution `k+1`'s, … -/
def flatFrom (k : Nat) : List PromptExec → List (Nat × Notif)
  | [] => []
  | e :: es => e.notes.map (fun n => (k, n)) ++ flatFrom (k + 1) es

/-- Initial scheduler state for a submission sequence. -/
def schedInit (execs : List PromptExec) : SchedState := ⟨execs, 0, 0, [], []⟩

/-- Terminal scheduler state of a fully drained run: every execution has
settled, no residue remains, and the delivered stream is the in-order
concatenation of the per-execution streams. -/
def schedFinal (execs : List PromptExec) : SchedState :=
  ⟨execs, execs.length, 0, [], flatFrom 0 execs⟩

/-! ### Concrete instances used by witnesses and counterexamples -/

/-- First write to the conversation log: one complete line and the start of
a second one (the round-trip example of the specification). -/
def logWrite1 : Str := "\x7b\"a\":1\x7d\n\x7b\"b\"".toList

/-- Second write to the conversation log, completing the partial line. -/
def logWrite2 : Str := ":2\x7d\n".toList

/-- A registry with one session `"p"` holding a one-turn history (array
reference 0) and a one-command list (array reference 1). -/
def forkExReg : Registry :=
  ⟨[("p", ⟨"/w", 0, 1, false, false, "default", "gpt", [], none⟩)],
    [(0, [⟨"user", "hi"⟩])], [(1, ["help"])], 2⟩

/-- The registry produced by forking `"p"` into `"n"`. -/
def forkExReg' : Registry :=
  ((forkSession forkExReg "p" "/w2" "n").toOption.getD (forkExReg, "n")).1

/-- The `.ok` payload of `forkSession` when the parent lookup yields
`parent` (spelled out so the fork's effect can be reasoned about
directly). -/
def forkResult (reg : Registry) (parent : SessionRec)
    (parentId cwd newId : String) : Registry :=
  { reg with
      sessions := insertA reg.sessions newId
        { cwd := cwd
          historyRef := reg.nextRef
          commandsRef := reg.nextRef + 1
          cancelled := false
          permissionServerActive := false
          modeId := parent.modeId
          modelId := parent.modelId
          configOptions := parent.configOptions.map (fun o => o)
          parentSessionId := some parentId }
      histories := insertA reg.histories reg.nextRef
        ((lookupA reg.histories parent.historyRef).getD [])
      commandLists := insertA reg.commandLists (reg.nextRef + 1)
        ((lookupA reg.commandLists parent.commandsRef).getD [])
      nextRef := reg.nextRef + 2 }

/-- A two-prompt submission where the first execution emits one
notification and then rejects, and the second emits one notification. -/
def schedExample : List PromptExec :=
  [{ notes := [Notif.agentMessageChunk "a".toList], rejects := true },
   { notes := [Notif.agentMessageChunk "b".toList], rejects := false }]

/-- First notification of the interleaving scenario. -/
def noteA : Notif := Notif.agentMessageChunk "a".toList

/-- The notification of prompt 0 that its timed-out drain delivers late. -/
def noteB : Notif := Notif.agentMessageChunk "b".toList

/-- The notification of prompt 1. -/
def noteC : Notif := Notif.agentMessageChunk "c".toList

/-- Prompt 0 of the interleaving scenario: two notifications, of which the
second is still pending in the tail drain when the two-second race ends. -/
def pe0 : PromptExec := { notes := [noteA, noteB], rejects := false }

/-- Prompt 1 of the interleaving scenario: one notification. -/
def pe1 : PromptExec := { notes := [noteC], rejects := false }

/-- The two-prompt submission of the interleaving scenario. -/
def schedRaceExample : List PromptExec := [pe0, pe1]

/-! ## Supporting lemmas -/

theorem lookupA_insertA_self {κ α : Type} [DecidableEq κ]
    (m : List (κ × α)) (k : κ) (v : α) : lookupA (insertA m k v) k = some v := by
  simp [lookupA, insertA]

theorem lookupA_insertA_ne {κ α : Type} [DecidableEq κ]
    (m : List (κ × α)) (k k' : κ) (v : α) (h : k ≠ k') :
    lookupA (insertA m k v) k' = lookupA m k' := by
  simp [lookupA, insertA, h]

theorem lookupA_updateA_ne {κ α : Type} [DecidableEq κ]
    (m : List (κ × α)) (k k' : κ) (f : α → α) (h : k ≠ k') :
    lookupA (updateA m k f) k' = lookupA m k' := by
  induction m with
  | nil => rfl
  | cons p rest ih =>
    obtain ⟨a, b⟩ := p
    by_cases hp : a = k
    · subst hp
      simp [updateA, lookupA, h]
    · by_cases hp' : a = k'
      · simp [updateA, lookupA, hp, hp', Ne.symm h]
      · simpa [updateA, lookupA, hp, hp'] using ih

theorem lookupA_updateA_self {κ α : Type} [DecidableEq κ]
    (m : List (κ × α)) (k : κ) (f : α → α) :
    lookupA (updateA m k f) k = (lookupA m k).map f := by
  induction m with
  | nil => rfl
  | cons p rest ih =>
    obtain ⟨a, b⟩ := p
    by_cases hp : a = k
    · simp [updateA, lookupA, hp]
    · simpa [updateA, lookupA, hp] using ih

theorem splitOnNl_ne_nil (s : Str) : splitOnNl s ≠ [] := by
  cases s with
  | nil => simp [splitOnNl]
  | cons c cs =>
    simp only [splitOnNl]
    cases h : splitOnNl cs with
    | nil => simp
    | cons l ls =>
      by_cases hc : c = '\n' <;> simp [hc]

theorem joinNl_splitOnNl (s : Str) : joinNl (splitOnNl s) = s := by
  induction s with
  | nil => rfl
  | cons c cs ih =>
    simp only [splitOnNl]
    cases h : splitOnNl cs with
    | nil => exact absurd h (splitOnNl_ne_nil cs)
    | cons l ls =>
      rw [h] at ih
      show joinNl (if c = '\n' then [] :: l :: ls else (c :: l) :: ls) = c :: cs
      by_cases hc : c = '\n'
      · subst hc
        simpa [joinNl] using ih
      · rw [if_neg hc]
        cases ls with
        | nil =>
          simp only [joinNl] at ih ⊢
          rw [ih]
        | cons l' ls' =>
          simp only [joinNl, List.cons_append] at ih ⊢
          rw [ih]

theorem mem_insertByCreatedAtDesc {a x : IndexEntry} {l : List IndexEntry} :
    a ∈ insertByCreatedAtDesc x l ↔ a = x ∨ a ∈ l := by
  induction l with
  | nil => simp [insertByCreatedAtDesc]
  | cons y ys ih =>
    simp only [insertByCreatedAtDesc]
    by_cases hy : y.createdAt < x.createdAt
    · simp [hy]
    · simp only [if_neg hy, List.mem_cons, ih]
      tauto

theorem mem_sortByCreatedAtDesc {a : IndexEntry} {l : List IndexEntry} :
    a ∈ sortByCreatedAtDesc l ↔ a ∈ l := by
  induction l with
  | nil => simp [sortByCreatedAtDesc]
  | cons x xs ih =>
    simp [sortByCreatedAtDesc, mem_insertByCreatedAtDesc, ih]

theorem chunkLoop_flatten (maxSize fuel : Nat) (text : Str) :
    (chunkLoop maxSize fuel text).flatten = text := by
  induction fuel generalizing text with
  | zero => simp [chunkLoop]
  | succ f ih =>
    simp only [chunkLoop]
    by_cases h : text.length ≤ maxSize
    · simp [h]
    · simp [h, ih, List.take_append_drop]

theorem chunkLoop_le (maxSize : Nat) (hpos : 0 < maxSize) :
    ∀ fuel (text : Str), text.length ≤ fuel + maxSize →
      ∀ c ∈ chunkLoop maxSize fuel text, c.length ≤ maxSize := by
  intro fuel
  induction fuel with
  | zero =>
    intro text hlen c hc
    simp only [chunkLoop, List.mem_singleton] at hc
    subst hc
    simpa using hlen
  | succ f ih =>
    intro text hlen c hc
    simp only [chunkLoop] at hc
    by_cases h : text.length ≤ maxSize
    · rw [if_pos h] at hc
      simp only [List.mem_singleton] at hc
      subst hc
      exact h
    · rw [if_neg h] at hc
      rcases List.mem_cons.mp hc with rfl | hc'
      · simp [List.length_take]
      · refine ih (text.drop maxSize) ?_ c hc'
        simp only [List.length_drop]
        omega

theorem lookupA_eraseA_self {α : Type} (m : List (String × α)) (k : String) :
    lookupA (eraseA m k) k = none := by
  induction m with
  | nil => rfl
  | cons p rest ih =>
    obtain ⟨a, b⟩ := p
    by_cases hp : a = k
    · simpa [eraseA, hp] using ih
    · simpa [eraseA, lookupA, hp] using ih

theorem not_mem_eraseS_self (s : List String) (k : String) :
    k ∉ eraseS s k := by
  intro hk
  have h2 := (List.mem_filter.mp hk).2
  simp at h2

theorem tailerReadSpec_of_lt (file : Str) (st : TailState)
    (h : st.conversationOffset < file.length) : TailerReadSpec file st := by
  have hno : ¬ file.length ≤ st.conversationOffset := Nat.not_le.mpr h
  unfold TailerReadSpec readConversation
  rw [if_neg hno]
  dsimp only
  refine ⟨rfl, Nat.le_add_right _ _, ?_, rfl⟩
  have hne : splitOnNl (st.conversationRemainder ++
      (file.drop st.conversationOffset).take
        (min (file.length - st.conversationOffset) CHUNK_SIZE)) ≠ [] :=
    splitOnNl_ne_nil _
  rw [List.getLastD_eq_getLast?, List.getLast?_eq_getLast _ hne,
    Option.getD_some, List.dropLast_append_getLast hne, joinNl_splitOnNl]

theorem discoverStep_characterize (home cwd : String)
    (snapshot : List String) (obs : PollObservation) (p : String)
    (h : discoverStep home cwd snapshot obs = some p) :
    (∃ e ∈ obs.indexSessions, snapshot.contains e.id = false
      ∧ e.projectPath = cwd ∧ p = conversationPathOf home e.id)
    ∨ (obs.sessionsDirExists = true
      ∧ ∃ n ∈ obs.dirEntries, snapshot.contains n = false
        ∧ p = conversationPathOf home n) := by
  unfold discoverStep at h
  cases hs : sortByCreatedAtDesc (discoverCandidates cwd snapshot obs) with
  | cons latest rest =>
    rw [hs] at h
    left
    have hmem : latest ∈ sortByCreatedAtDesc (discoverCandidates cwd snapshot obs) := by
      rw [hs]
      exact List.mem_cons_self _ _
    have hcand := mem_sortByCreatedAtDesc.mp hmem
    have hfil := List.mem_filter.mp hcand
    have hpred := hfil.2
    rw [Bool.and_eq_true, Bool.not_eq_true', beq_iff_eq] at hpred
    exact ⟨latest, hfil.1, hpred.1, hpred.2, (Option.some.injEq _ _).mp h.symm⟩
  | nil =>
    rw [hs] at h
    dsimp only at h
    right
    split at h
    next hdir =>
      split at h
      next n hn =>
        refine ⟨hdir, n, List.mem_of_find?_eq_some hn, ?_, ?_⟩
        · have := List.find?_some hn
          rwa [Bool.not_eq_true'] at this
        · exact (Option.some.injEq _ _).mp h.symm
      next => exact absurd h (by simp)
    next hdir => exact absurd h (by simp)

theorem waitAux_characterize (home cwd : String) (snapshot : List String) :
    ∀ fuel (polls : List PollObservation) (p : String),
      waitForConversationPathAux home cwd snapshot fuel polls = some p →
        ∃ obs ∈ polls, discoverStep home cwd snapshot obs = some p := by
  intro fuel
  induction fuel with
  | zero =>
    intro polls p h
    simp [waitForConversationPathAux] at h
  | succ f ih =>
    intro polls p h
    cases polls with
    | nil => simp [waitForConversationPathAux] at h
    | cons obs rest =>
      rw [waitForConversationPathAux] at h
      split at h
      · exact absurd h (by simp)
      · split at h
        next q hq =>
          exact ⟨obs, List.mem_cons_self _ _, by rw [hq]; exact h⟩
        next hq =>
          obtain ⟨o, ho, hd⟩ := ih rest p h
          exact ⟨o, List.mem_cons_of_mem _ ho, hd⟩

theorem waitAux_take (home cwd : String) (snapshot : List String) :
    ∀ fuel (polls : List PollObservation),
      waitForConversationPathAux home cwd snapshot fuel polls
        = waitForConversationPathAux home cwd snapshot fuel (polls.take fuel) := by
  intro fuel
  induction fuel with
  | zero => intro polls; rfl
  | succ f ih =>
    intro polls
    cases polls with
    | nil => rfl
    | cons obs rest =>
      rw [List.take_succ_cons, waitForConversationPathAux,
        waitForConversationPathAux, ih rest]

theorem forkSession_eq_ok (reg : Registry) (parent : SessionRec)
    (parentId cwd newId : String)
    (hl : lookupA reg.sessions parentId = some parent) :
    forkSession reg parentId cwd newId
      = .ok (forkResult reg parent parentId cwd newId, newId) := by
  unfold forkSession forkResult
  rw [hl]

theorem setSessionMode_ok_inv (reg : Registry) (sid m : String)
    (reg'' : Registry) (h : setSessionMode reg sid m = .ok reg'') :
    reg'' = { reg with
      sessions := updateA reg.sessions sid (fun r => { r with modeId := m }) } := by
  unfold setSessionMode at h
  cases hl : lookupA reg.sessions sid with
  | none => rw [hl] at h; cases h
  | some r =>
    rw [hl] at h
    dsimp only at h
    exact ((Except.ok.injEq _ _).mp h).symm

theorem setSessionModel_ok_inv (reg : Registry) (sid m : String)
    (reg'' : Registry) (h : setSessionModel reg sid m = .ok reg'') :
    reg'' = { reg with
      sessions := updateA reg.sessions sid (fun r => { r with modelId := m }) } := by
  unfold setSessionModel at h
  cases hl : lookupA reg.sessions sid with
  | none => rw [hl] at h; cases h
  | some r =>
    rw [hl] at h
    dsimp only at h
    exact ((Except.ok.injEq _ _).mp h).symm

theorem regWF_forkEx : RegWF forkExReg := by
  intro sid r h
  unfold forkExReg at h
  dsimp only [lookupA] at h
  split at h
  · cases h
    exact ⟨by decide, by decide⟩
  · cases h

theorem statusesFor_append (x : String) (a b : List Notif) :
    statusesFor x (a ++ b) = statusesFor x a ++ statusesFor x b := by
  simp [statusesFor]

theorem processEvents_append (ct : Bool) (st : SessTools) (l1 l2 : List Event) :
    processEvents ct st (l1 ++ l2)
      = ((processEvents ct (processEvents ct st l1).1 l2).1,
          (processEvents ct st l1).2
            ++ (processEvents ct (processEvents ct st l1).1 l2).2) := by
  induction l1 generalizing st with
  | nil => simp [processEvents]
  | cons e es ih =>
    simp only [List.cons_append, processEvents, List.append_eq, ih,
      List.append_assoc]

theorem statusesFor_planNotifsFor (x : String) (tool : String)
    (args : Option ToolArgs) : statusesFor x (planNotifsFor tool args) = [] := by
  unfold planNotifsFor
  split
  · split <;> simp [statusesFor, notifStatusFor]
  · split
    · split <;> simp [statusesFor, notifStatusFor]
    · rfl

theorem statusesFor_cons_toolCall_self (x : String) (s : Status) (t : String)
    (k : ToolKind) (rest : List Notif) :
    statusesFor x (Notif.toolCall x s t k :: rest) = s :: statusesFor x rest := by
  simp [statusesFor, notifStatusFor]

theorem statusesFor_cons_update_self (x : String) (s : Status)
    (c : Option Str) (tm : Option (Str × StreamTag)) (rest : List Notif) :
    statusesFor x (Notif.toolCallUpdate x s c tm :: rest)
      = s :: statusesFor x rest := by
  simp [statusesFor, notifStatusFor]

theorem start_statuses (ct : Bool) (st : SessTools) (call : ToolCallRec)
    (x f0 : String) (hid : call.id = some x) :
    (lookupA (handleToolCallStart ct st call f0).1.toolCalls x).isSome = true
    ∧ ∃ s0, statusesFor x (handleToolCallStart ct st call f0).2 = [s0]
        ∧ statusRank s0 ≤ 1 := by
  unfold handleToolCallStart
  rw [hid]
  simp only [Option.getD_some]
  constructor
  · rw [lookupA_insertA_self]
    rfl
  · refine ⟨if (call.tool.getD "tool") == "run_command" then Status.inProgress
      else Status.pending, ?_, ?_⟩
    · rw [statusesFor_cons_toolCall_self, statusesFor_planNotifsFor]
    · by_cases hb : ((call.tool.getD "tool") == "run_command") = true
      · rw [if_pos hb]
        decide
      · rw [if_neg hb]
        decide

theorem delta_preserves (st : SessTools) (m : ToolMsg) (sg : StreamTag)
    (f x : String) (hid : m.tool_call_id = some x)
    (hknown : (lookupA st.toolCalls x).isSome = true) :
    (lookupA (handleToolCallOutputDelta st m sg f).1.toolCalls x).isSome = true
    ∧ ∀ s ∈ statusesFor x (handleToolCallOutputDelta st m sg f).2,
        s = Status.inProgress := by
  unfold handleToolCallOutputDelta
  rw [hid]
  simp only [Option.getD_some]
  by_cases hchunk : m.content.getD [] = []
  · rw [if_pos hchunk]
    exact ⟨hknown, by simp [statusesFor]⟩
  · rw [if_neg hchunk]
    split
    · constructor
      · simp [hknown]
      · simp [hknown, statusesFor, notifStatusFor]
    · constructor
      · simp [hknown]
      · simp [hknown, statusesFor, notifStatusFor]

theorem deltas_preserve (ct : Bool) (x : String) :
    ∀ (ds : List Event) (st : SessTools),
      (∀ e ∈ ds, ∃ m sg f, e = Event.delta m sg f ∧ m.tool_call_id = some x) →
      (lookupA st.toolCalls x).isSome = true →
      (lookupA (processEvents ct st ds).1.toolCalls x).isSome = true
      ∧ ∀ s ∈ statusesFor x (processEvents ct st ds).2,
          s = Status.inProgress := by
  intro ds
  induction ds with
  | nil =>
    intro st _ hk
    exact ⟨hk, by simp [processEvents, statusesFor]⟩
  | cons e es ih =>
    intro st hall hk
    obtain ⟨m, sg, f, rfl, hm⟩ := hall _ (List.mem_cons_self _ _)
    have h1 := delta_preserves st m sg f x hm hk
    have h2 := ih (handleToolCallOutputDelta st m sg f).1
      (fun e he => hall _ (List.mem_cons_of_mem _ he)) h1.1
    simp only [processEvents, handleEvent]
    refine ⟨h2.1, ?_⟩
    intro s hs
    rw [statusesFor_append] at hs
    rcases List.mem_append.mp hs with h | h
    · exact h1.2 s h
    · exact h2.2 s h

theorem result_statuses (st : SessTools) (m : ToolMsg) (f x : String)
    (hid : m.tool_call_id = some x)
    (hknown : (lookupA st.toolCalls x).isSome = true) :
    ∃ t, statusesFor x (handleToolCallResult st m f).2 = [t]
      ∧ statusRank t = 2 := by
  unfold handleToolCallResult
  rw [hid]
  simp only [Option.getD_some]
  refine ⟨if matchesErrorPattern (m.content.getD []) then Status.failed
    else Status.completed, ?_, ?_⟩
  · simp [hknown, statusesFor, notifStatusFor]
  · by_cases hf : matchesErrorPattern (m.content.getD []) = true
    · rw [if_pos hf]
      decide
    · rw [if_neg hf]
      decide

theorem chain_shape :
    ∀ (mid : List Status) (s0 t : Status),
      statusRank s0 ≤ 1 → (∀ s ∈ mid, s = Status.inProgress) →
      1 ≤ statusRank t →
      List.Chain' (fun a b => statusRank a ≤ statusRank b) (s0 :: (mid ++ [t]))
  | [], s0, t, h0, _, ht => by
    simp only [List.nil_append, List.chain'_cons, List.chain'_singleton,
      and_true]
    exact le_trans h0 ht
  | a :: mid, s0, t, h0, hm, ht => by
    have ha : a = Status.inProgress := hm a (List.mem_cons_self _ _)
    subst ha
    rw [List.cons_append, List.chain'_cons]
    exact ⟨by simpa [statusRank] using h0,
      chain_shape mid .inProgress t (by decide)
        (fun s hs => hm s (List.mem_cons_of_mem _ hs)) ht⟩

theorem schedStepNT_to_schedStep {s s' : SchedState}
    (h : SchedStepNT s s') : SchedStep s s' := by
  cases h with
  | emit e n he hn => exact SchedStep.emit _ e n he hn
  | settle e he hn => exact SchedStep.settle _ e he hn

theorem schedFinal_no_step (execs : List PromptExec) (s' : SchedState) :
    ¬ SchedStep (schedFinal execs) s' := by
  intro h
  have hnone : (schedFinal execs).execs[(schedFinal execs).current]?
      = (none : Option PromptExec) := by
    show execs[execs.length]? = none
    exact List.getElem?_eq_none (le_refl _)
  cases h with
  | emit e n he hn =>
    rw [hnone] at he
    cases he
  | settle e he hemit =>
    rw [hnone] at he
    cases he
  | settleTimeout e he hemit =>
    rw [hnone] at he
    cases he
  | drain pre post k n rest hr =>
    simp only [schedFinal] at hr
    obtain ⟨h1x, h2x⟩ := List.append_eq_nil.mp hr.symm
    cases h2x

theorem sched_run_notes (execs : List PromptExec) (k : Nat) (e : PromptExec)
    (he : execs[k]? = some e) :
    ∀ (suf pre : List Notif), e.notes = pre ++ suf →
      ∀ d, SchedStepsNT ⟨execs, k, pre.length, [], d⟩
        ⟨execs, k, e.notes.length, [], d ++ suf.map (fun n => (k, n))⟩ := by
  intro suf
  induction suf with
  | nil =>
    intro pre hpre d
    have h1 : pre.length = e.notes.length := by rw [hpre, List.append_nil]
    rw [List.map_nil, List.append_nil, ← h1]
    exact Relation.ReflTransGen.refl
  | cons a suf ih =>
    intro pre hpre d
    have hget : e.notes[pre.length]? = some a := by
      rw [hpre, List.getElem?_append_right (le_refl _), Nat.sub_self]
      simp
    have hstep : SchedStepNT ⟨execs, k, pre.length, [], d⟩
        ⟨execs, k, pre.length + 1, [], d ++ [(k, a)]⟩ :=
      SchedStepNT.emit ⟨execs, k, pre.length, [], d⟩ e a he hget
    have hrest := ih (pre ++ [a])
      (by rw [hpre, List.append_assoc, List.singleton_append]) (d ++ [(k, a)])
    rw [List.length_append, List.length_singleton] at hrest
    rw [List.map_cons]
    have heq : d ++ ((k, a) :: suf.map (fun n => (k, n)))
        = (d ++ [(k, a)]) ++ suf.map (fun n => (k, n)) := by
      rw [List.append_assoc, List.singleton_append]
    rw [heq]
    exact Relation.ReflTransGen.head hstep hrest

theorem sched_run_exec (execs : List PromptExec) (k : Nat) (e : PromptExec)
    (he : execs[k]? = some e) (d : List (Nat × Notif)) :
    SchedStepsNT ⟨execs, k, 0, [], d⟩
      ⟨execs, k + 1, 0, [], d ++ e.notes.map (fun n => (k, n))⟩ := by
  have h1 := sched_run_notes execs k e he e.notes [] rfl d
  have hstep : SchedStepNT
      ⟨execs, k, e.notes.length, [], d ++ e.notes.map (fun n => (k, n))⟩
      ⟨execs, k + 1, 0, [], d ++ e.notes.map (fun n => (k, n))⟩ :=
    SchedStepNT.settle _ e he rfl
  exact Relation.ReflTransGen.trans h1 (Relation.ReflTransGen.single hstep)

theorem sched_run_all (execs : List PromptExec) :
    ∀ (rest pre : List PromptExec) (d : List (Nat × Notif)),
      execs = pre ++ rest →
      SchedStepsNT ⟨execs, pre.length, 0, [], d⟩
        ⟨execs, execs.length, 0, [], d ++ flatFrom pre.length rest⟩ := by
  intro rest
  induction rest with
  | nil =>
    intro pre d hsplit
    rw [flatFrom, List.append_nil, hsplit, List.append_nil]
    exact Relation.ReflTransGen.refl
  | cons e rest ih =>
    intro pre d hsplit
    have hget : execs[pre.length]? = some e := by
      rw [hsplit, List.getElem?_append_right (le_refl _), Nat.sub_self]
      simp
    have h1 := sched_run_exec execs pre.length e hget d
    have h2 := ih (pre ++ [e]) (d ++ e.notes.map (fun n => (pre.length, n)))
      (by rw [hsplit, List.append_assoc, List.singleton_append])
    rw [List.length_append, List.length_singleton] at h2
    rw [flatFrom]
    have heq : d ++ (e.notes.map (fun n => (pre.length, n))
        ++ flatFrom (pre.length + 1) rest)
        = (d ++ e.notes.map (fun n => (pre.length, n)))
          ++ flatFrom (pre.length + 1) rest := (List.append_assoc _ _ _).symm
    rw [heq]
    exact Relation.ReflTransGen.trans h1 h2

theorem schedStepsNT_ordered (execs : List PromptExec) :
    ∀ s, SchedStepsNT (schedInit execs) s →
      (∀ p ∈ s.delivered, p.1 ≤ s.current)
      ∧ List.Pairwise (fun a b : Nat × Notif => a.1 ≤ b.1) s.delivered := by
  intro s h
  induction h with
  | refl => exact ⟨by simp [schedInit], by simp [schedInit]⟩
  | @tail b c hab hbc ih =>
    cases hbc with
    | emit e n he hn =>
      refine ⟨?_, ?_⟩
      · intro p hp
        rcases List.mem_append.mp hp with hp | hp
        · exact ih.1 p hp
        · rw [List.mem_singleton] at hp
          subst hp
          exact le_refl _
      · refine List.pairwise_append.mpr ⟨ih.2, by simp, ?_⟩
        intro a ha q hq
        rw [List.mem_singleton] at hq
        subst hq
        exact ih.1 a ha
    | settle e he hn =>
      exact ⟨fun p hp => le_trans (ih.1 p hp) (Nat.le_succ _), ih.2⟩

theorem schedSteps_active_bound (execs : List PromptExec) :
    ∀ s, SchedSteps (schedInit execs) s →
      (∀ p ∈ s.delivered, p.1 ≤ s.current)
      ∧ (∀ r ∈ s.residues, r.1 < s.current) := by
  intro s h
  induction h with
  | refl => exact ⟨by simp [schedInit], by simp [schedInit]⟩
  | @tail b c hab hbc ih =>
    cases hbc with
    | emit e n he hn =>
      refine ⟨?_, ih.2⟩
      intro p hp
      rcases List.mem_append.mp hp with hp | hp
      · exact ih.1 p hp
      · rw [List.mem_singleton] at hp
        subst hp
        exact le_refl _
    | settle e he hn =>
      exact ⟨fun p hp => le_trans (ih.1 p hp) (Nat.le_succ _),
        fun r hr => Nat.lt_succ_of_lt (ih.2 r hr)⟩
    | settleTimeout e he hn =>
      refine ⟨fun p hp => le_trans (ih.1 p hp) (Nat.le_succ _), ?_⟩
      intro r hr
      rcases List.mem_append.mp hr with hr | hr
      · exact Nat.lt_succ_of_lt (ih.2 r hr)
      · rw [List.mem_singleton] at hr
        subst hr
        exact Nat.lt_succ_self _
    | drain pre post k n rest hr =>
      have hk : (k, n :: rest) ∈ b.residues := by
        rw [hr]
        exact List.mem_append.mpr (Or.inr (List.mem_cons_self _ _))
      refine ⟨?_, ?_⟩
      · intro p hp
        rcases List.mem_append.mp hp with hp | hp
        · exact ih.1 p hp
        · rw [List.mem_singleton] at hp
          subst hp
          exact le_of_lt (ih.2 _ hk)
      · intro r hrm
        rcases List.mem_append.mp hrm with hrm | hrm
        · exact ih.2 r (by rw [hr]; exact List.mem_append.mpr (Or.inl hrm))
        · rcases List.mem_cons.mp hrm with rfl | hrm
          · exact ih.2 (k, n :: rest) hk
          · exact ih.2 r
              (by rw [hr]
                  exact List.mem_append.mpr
                    (Or.inr (List.mem_cons_of_mem _ hrm)))

theorem flatFrom_fst_ge (k : Nat) (es : List PromptExec) :
    ∀ p ∈ flatFrom k es, k ≤ p.1 := by
  induction es generalizing k with
  | nil =>
    intro p hp
    cases hp
  | cons e es ih =>
    intro p hp
    rw [flatFrom] at hp
    rcases List.mem_append.mp hp with h | h
    · obtain ⟨n, _, rfl⟩ := List.mem_map.mp h
      exact le_refl k
    · exact le_trans (Nat.le_succ k) (ih (k + 1) p h)

theorem pairwise_const_fst (k : Nat) (l : List Notif) :
    List.Pairwise (fun a b => a.1 ≤ b.1) (l.map (fun n => (k, n))) := by
  induction l with
  | nil => exact List.Pairwise.nil
  | cons n l ih =>
    rw [List.map_cons]
    refine List.Pairwise.cons ?_ ih
    intro p hp
    obtain ⟨n', _, rfl⟩ := List.mem_map.mp hp
    exact le_refl k

theorem flatFrom_pairwise (k : Nat) (es : List PromptExec) :
    List.Pairwise (fun a b : Nat × Notif => a.1 ≤ b.1) (flatFrom k es) := by
  induction es generalizing k with
  | nil => exact List.Pairwise.nil
  | cons e es ih =>
    rw [flatFrom]
    refine List.pairwise_append.mpr ⟨pairwise_const_fst k e.notes, ih (k + 1), ?_⟩
    intro a ha b hb
    obtain ⟨n, _, rfl⟩ := List.mem_map.mp ha
    exact le_trans (Nat.le_succ k) (flatFrom_fst_ge (k + 1) es b hb)

/-! ## Claim theorems -/

/-- C9: every text string forwarded to the update relay is split into
consecutive pieces of at most `MAX_UPDATE_CHUNK = 4000` characters each, one
notification is emitted per piece in order, and the concatenation of the
emitted pieces equals the original text: chunking loses and duplicates
nothing and no single notification is unbounded. -/
theorem queueTextUpdate_chunks_bounded_and_lossless (text : Str) :
    queueTextUpdateNotes text
        = (chunkText text MAX_UPDATE_CHUNK).map Notif.agentMessageChunk
    ∧ (chunkText text MAX_UPDATE_CHUNK).flatten = text
    ∧ ∀ c ∈ chunkText text MAX_UPDATE_CHUNK, c.length ≤ MAX_UPDATE_CHUNK :=
  ⟨rfl, chunkLoop_flatten _ _ _,
    chunkLoop_le MAX_UPDATE_CHUNK (by decide) text.length text
      (Nat.le_add_right _ _)⟩

/-- Witness for C9 at the concrete text `"ok"`. -/
theorem queueTextUpdate_chunks_witness :
    "ok".toList ∈ chunkText "ok".toList MAX_UPDATE_CHUNK
    ∧ ("ok".toList).length ≤ MAX_UPDATE_CHUNK :=
  ⟨by decide,
    (queueTextUpdate_chunks_bounded_and_lossless "ok".toList).2.2 "ok".toList
      (by decide)⟩

/-- C10: cancelling with a session id absent from the registry is a silent
no-op — `cancel` returns normally and leaves the registry unchanged — while
`setSessionMode`, `setSessionModel` and `setSessionConfigOption` each fail
with the invalid-params UnknownSession error for the same id. -/
theorem cancel_unknown_session_silent_noop (reg : Registry)
    (sid m mo cid v : String) (h : lookupA reg.sessions sid = none) :
    cancel reg sid = reg
    ∧ setSessionMode reg sid m = .error .unknownSession
    ∧ setSessionModel reg sid mo = .error .unknownSession
    ∧ setSessionConfigOption reg sid cid v = .error .unknownSession := by
  simp [cancel, setSessionMode, setSessionModel, setSessionConfigOption, h]

/-- Witness for C10 on the empty registry. -/
theorem cancel_unknown_session_witness :
    lookupA (Registry.mk [] [] [] 0).sessions "s" = none
    ∧ cancel ⟨[], [], [], 0⟩ "s" = ⟨[], [], [], 0⟩ :=
  ⟨rfl,
    (cancel_unknown_session_silent_noop ⟨[], [], [], 0⟩ "s" "m" "mo" "c" "v"
      rfl).1⟩

/-- C2: every prompt execution resolves with exactly one stop reason —
`end_turn` or `cancelled` — for every possible outcome (launch failure,
non-zero exit, termination by signal, cancellation); moreover the stop
reason is `cancelled` precisely when the workspace existed, no slash command
short-circuited, and the session's cancelled flag was set when checked after
subprocess exit.  The embedding is a total function: no outcome escapes as a
rejection. -/
theorem prompt_resolves_with_one_stop_reason (obs : PromptRunObs) :
    ((executePromptResult obs).1 = .endTurn
      ∨ (executePromptResult obs).1 = .cancelled)
    ∧ ((executePromptResult obs).1 = .cancelled ↔
        obs.workspaceExists = true ∧ obs.slashHandled = false
          ∧ obs.cancelledAtEnd = true) := by
  rcases obs with ⟨we, sh, ce, ex, se⟩
  cases we <;> cases sh <;> cases ce <;> simp [executePromptResult]

/-- C8: the permission bridge denies free-text input prompts and zero-choice
selection prompts immediately, without any client round-trip (the round-trip
flag is `false`); and a cancelled or thrown client round-trip always
resolves as denied — for the generic prompt bridge and the tool-permission
bridge alike. -/
theorem permission_bridge_denies_safely (req : PromptReq)
    (client : ClientOutcome) :
    (req.type = PromptType.input →
      requestPromptFromClient req client = (false, deniedDecision))
    ∧ (req.type = PromptType.select → (req.choices.getD []).isEmpty = true →
      requestPromptFromClient req client = (false, deniedDecision))
    ∧ ((client = .cancelled ∨ client = .errorThrown) →
      (requestPromptFromClient req client).2.allowed = false
      ∧ (requestPermissionFromClient client).2.allowed = false) := by
  refine ⟨?_, ?_, ?_⟩
  · intro h
    simp [requestPromptFromClient, h]
  · intro h hc
    rcases req with ⟨ty, msg, chs⟩
    simp only at h
    subst h
    simp [requestPromptFromClient, hc]
  · rintro (rfl | rfl) <;>
      · constructor
        · unfold requestPromptFromClient
          split
          · rfl
          · split
            · rfl
            · rfl
        · rfl

/-- Witness for C8: an input prompt with a cancelled client round-trip. -/
theorem permission_bridge_witness :
    requestPromptFromClient ⟨PromptType.input, "value?", none⟩ .cancelled
      = (false, deniedDecision) :=
  (permission_bridge_denies_safely ⟨PromptType.input, "value?", none⟩
    .cancelled).1 rfl

/-- C4: the tool-call-update emitted for a result event carries status
`failed` exactly when the output text matches the case-insensitive
/error|failed|exception/ pattern and `completed` for every other output
text, and the same call always removes the call's buffered output and its
streaming and terminal bookkeeping entries. -/
theorem tool_result_status_iff_error_pattern (st : SessTools) (msg : ToolMsg)
    (fresh : String) :
    (∃ content, (handleToolCallResult st msg fresh).2.getLast?
        = some (Notif.toolCallUpdate (msg.tool_call_id.getD fresh)
            (if matchesErrorPattern (msg.content.getD []) then Status.failed
             else Status.completed) content none))
    ∧ lookupA (handleToolCallResult st msg fresh).1.toolCallOutputs
        (msg.tool_call_id.getD fresh) = none
    ∧ (msg.tool_call_id.getD fresh)
        ∉ (handleToolCallResult st msg fresh).1.streamingToolCalls
    ∧ (msg.tool_call_id.getD fresh)
        ∉ (handleToolCallResult st msg fresh).1.terminalToolCalls := by
  unfold handleToolCallResult
  dsimp only
  exact ⟨⟨_, List.getLast?_concat _⟩, lookupA_eraseA_self _ _,
    not_mem_eraseS_self _ _, not_mem_eraseS_self _ _⟩

/-- C3: every `readConversation` call consumes each byte at most once (the
offset is monotone and advances by exactly the bytes read), buffers an
unterminated trailing partial line as the remainder prepended to the next
read, and never drops the remainder; concretely, writing `{"a":1}`, a
newline and `{"b"`, then later `:2}` with the completing newline, yields
exactly one event per complete line — never a merged, duplicated or lost
event. -/
theorem tailer_reads_each_byte_once :
    (∀ file st, st.conversationOffset < file.length → TailerReadSpec file st)
    ∧ readConversation logWrite1 ⟨0, []⟩
        = (⟨12, "\x7b\"b\"".toList⟩, ["\x7b\"a\":1\x7d".toList])
    ∧ readConversation (logWrite1 ++ logWrite2) ⟨12, "\x7b\"b\"".toList⟩
        = (⟨16, []⟩, ["\x7b\"b\":2\x7d".toList]) :=
  ⟨fun file st h => tailerReadSpec_of_lt file st h, by decide, by decide⟩

/-- Witness for C3 at the first concrete log write. -/
theorem tailer_reads_witness :
    (TailState.mk 0 []).conversationOffset < logWrite1.length
    ∧ TailerReadSpec logWrite1 ⟨0, []⟩ :=
  ⟨by decide, tailer_reads_each_byte_once.1 logWrite1 ⟨0, []⟩ (by decide)⟩

/-- C5 counterexample: discovery returns a non-null path even though the
observed session index is empty — the directory-scan fallback returns any
sessions-directory entry absent from the snapshot, checking neither the
index nor the working directory — refuting the claim that a non-null result
always belongs to a matching session-index entry. -/
theorem discovery_claim_counterexample :
    waitForConversationPath "/h" "/w" [] [⟨false, [], true, ["zzz"]⟩]
      = some "/h/sessions/zzz/conversation.jsonl"
    ∧ (PollObservation.mk false [] true ["zzz"]).indexSessions = [] := by
  exact ⟨by decide, rfl⟩

/-- C5 amended: a non-null discovered path belongs either to an observed
session-index entry whose id is absent from the snapshot and whose working
directory equals the session's resolved one, or — when no index candidate
exists — to the directory-scan fallback, a sessions-directory entry whose
name is absent from the snapshot; discovery consults at most the first 40
polling attempts (200 ms apart in the source) and otherwise returns null. -/
theorem discovery_result_characterized (home cwd : String)
    (snapshot : List String) (polls : List PollObservation) :
    (∀ p, waitForConversationPath home cwd snapshot polls = some p →
      (∃ obs ∈ polls, ∃ e ∈ obs.indexSessions,
          snapshot.contains e.id = false ∧ e.projectPath = cwd
            ∧ p = conversationPathOf home e.id)
      ∨ (∃ obs ∈ polls, obs.sessionsDirExists = true
          ∧ ∃ n ∈ obs.dirEntries, snapshot.contains n = false
            ∧ p = conversationPathOf home n))
    ∧ waitForConversationPath home cwd snapshot polls
        = waitForConversationPath home cwd snapshot (polls.take 40) := by
  constructor
  · intro p h
    obtain ⟨obs, hobs, hd⟩ := waitAux_characterize home cwd snapshot 40 polls p h
    rcases discoverStep_characterize home cwd snapshot obs p hd with h1 | h2
    · exact Or.inl ⟨obs, hobs, h1⟩
    · exact Or.inr ⟨obs, hobs, h2⟩
  · exact waitAux_take home cwd snapshot 40 polls

/-- C7: forking an unknown parent id fails with the invalid-params
UnknownSession error and creates no session; forking a known parent creates
a session whose history, mode, model and command list are copies by value of
the parent's at fork time, so that later mutation of either session's mode,
model, history or command list leaves the other session's fields
unchanged. -/
theorem fork_copies_by_value :
    (∀ reg parentId cwd newId, lookupA reg.sessions parentId = none →
      forkSession reg parentId cwd newId = .error .unknownSession)
    ∧ (∀ (reg : Registry) (parent : SessionRec) (parentId cwd newId : String),
        RegWF reg → newId ≠ parentId →
        lookupA reg.sessions parentId = some parent →
        forkSession reg parentId cwd newId
          = .ok (forkResult reg parent parentId cwd newId, newId)
        ∧ (historyOf (forkResult reg parent parentId cwd newId) newId
              = historyOf reg parentId
          ∧ modeOf (forkResult reg parent parentId cwd newId) newId
              = modeOf reg parentId
          ∧ modelOf (forkResult reg parent parentId cwd newId) newId
              = modelOf reg parentId
          ∧ commandsOf (forkResult reg parent parentId cwd newId) newId
              = commandsOf reg parentId)
        ∧ (∀ m reg'',
            setSessionMode (forkResult reg parent parentId cwd newId) newId m
              = .ok reg'' →
            modeOf reg'' parentId
              = modeOf (forkResult reg parent parentId cwd newId) parentId)
        ∧ (∀ m reg'',
            setSessionMode (forkResult reg parent parentId cwd newId) parentId m
              = .ok reg'' →
            modeOf reg'' newId
              = modeOf (forkResult reg parent parentId cwd newId) newId)
        ∧ (∀ m reg'',
            setSessionModel (forkResult reg parent parentId cwd newId) newId m
              = .ok reg'' →
            modelOf reg'' parentId
              = modelOf (forkResult reg parent parentId cwd newId) parentId)
        ∧ (∀ m reg'',
            setSessionModel (forkResult reg parent parentId cwd newId) parentId m
              = .ok reg'' →
            modelOf reg'' newId
              = modelOf (forkResult reg parent parentId cwd newId) newId)
        ∧ (∀ msg,
            historyOf (pushHistory (forkResult reg parent parentId cwd newId)
                newId msg) parentId
              = historyOf (forkResult reg parent parentId cwd newId) parentId)
        ∧ (∀ msg,
            historyOf (pushHistory (forkResult reg parent parentId cwd newId)
                parentId msg) newId
              = historyOf (forkResult reg parent parentId cwd newId) newId)
        ∧ (∀ c,
            commandsOf (pushCommand (forkResult reg parent parentId cwd newId)
                newId c) parentId
              = commandsOf (forkResult reg parent parentId cwd newId) parentId)
        ∧ (∀ c,
            commandsOf (pushCommand (forkResult reg parent parentId cwd newId)
                parentId c) newId
              = commandsOf (forkResult reg parent parentId cwd newId) newId)) := by
  constructor
  · intro reg parentId cwd newId h
    unfold forkSession
    rw [h]
  · intro reg parent parentId cwd newId hwf hne hl
    obtain ⟨h1, h2⟩ := hwf parentId parent hl
    have hRN : lookupA (forkResult reg parent parentId cwd newId).sessions newId
        = some ⟨cwd, reg.nextRef, reg.nextRef + 1, false, false, parent.modeId,
            parent.modelId, parent.configOptions.map (fun o => o),
            some parentId⟩ := by
      simp [forkResult, lookupA_insertA_self]
    have hRP : lookupA (forkResult reg parent parentId cwd newId).sessions
        parentId = some parent := by
      rw [show (forkResult reg parent parentId cwd newId).sessions
          = insertA reg.sessions newId _ from rfl]
      rw [lookupA_insertA_ne _ _ _ _ hne]
      exact hl
    refine ⟨forkSession_eq_ok reg parent parentId cwd newId hl, ⟨?_, ?_, ?_, ?_⟩,
      ?_, ?_, ?_, ?_, ?_, ?_, ?_, ?_⟩
    · unfold historyOf
      rw [hRN, hl]
      simp [forkResult, lookupA_insertA_self]
    · unfold modeOf
      rw [hRN, hl]
      rfl
    · unfold modelOf
      rw [hRN, hl]
      rfl
    · unfold commandsOf
      rw [hRN, hl]
      simp [forkResult, lookupA_insertA_self]
    · intro m reg'' hset
      rw [setSessionMode_ok_inv _ _ _ _ hset]
      unfold modeOf
      dsimp only
      rw [lookupA_updateA_ne _ _ _ _ hne]
    · intro m reg'' hset
      rw [setSessionMode_ok_inv _ _ _ _ hset]
      unfold modeOf
      dsimp only
      rw [lookupA_updateA_ne _ _ _ _ (Ne.symm hne)]
    · intro m reg'' hset
      rw [setSessionModel_ok_inv _ _ _ _ hset]
      unfold modelOf
      dsimp only
      rw [lookupA_updateA_ne _ _ _ _ hne]
    · intro m reg'' hset
      rw [setSessionModel_ok_inv _ _ _ _ hset]
      unfold modelOf
      dsimp only
      rw [lookupA_updateA_ne _ _ _ _ (Ne.symm hne)]
    · intro msg
      unfold pushHistory
      rw [hRN]
      dsimp only
      unfold historyOf
      dsimp only
      rw [hRP]
      dsimp only [Option.map]
      rw [lookupA_updateA_ne _ _ _ _ (Ne.symm (Nat.ne_of_lt h1))]
    · intro msg
      unfold pushHistory
      rw [hRP]
      dsimp only
      unfold historyOf
      dsimp only
      rw [hRN]
      dsimp only [Option.map]
      rw [lookupA_updateA_ne _ _ _ _ (Nat.ne_of_lt h1)]
    · intro c
      unfold pushCommand
      rw [hRN]
      dsimp only
      unfold commandsOf
      dsimp only
      rw [hRP]
      dsimp only [Option.map]
      rw [lookupA_updateA_ne _ _ _ _
        (Ne.symm (Nat.ne_of_lt (Nat.lt_succ_of_lt h2)))]
    · intro c
      unfold pushCommand
      rw [hRP]
      dsimp only
      unfold commandsOf
      dsimp only
      rw [hRN]
      dsimp only [Option.map]
      rw [lookupA_updateA_ne _ _ _ _ (Nat.ne_of_lt (Nat.lt_succ_of_lt h2))]

/-- C1 counterexample: the claimed ordering fails on the code.
`executePrompt` races the final tail drain against `sleep(2000)`
(acp-agent.ts:856-859) and the losing drain keeps enqueueing prompt-0
notifications after prompt 0's promise has settled.  On the two-prompt
submission `schedRaceExample` the scheduler therefore reaches — via
emit, settle-by-timeout, emit, settle, drain — a state whose delivered
stream is `a` (prompt 0), `c` (prompt 1), `b` (prompt 0): a notification
attributable to prompt 0 is delivered after a notification attributable to
prompt 1, refuting the claim that every notification of prompt k precedes
every notification of prompt k+1. -/
theorem prompt_interleaving_counterexample :
    SchedSteps (schedInit schedRaceExample)
      ⟨schedRaceExample, 2, 0, [(0, [])], [(0, noteA), (1, noteC), (0, noteB)]⟩
    ∧ ¬ List.Pairwise (fun p q : Nat × Notif => p.1 ≤ q.1)
        [(0, noteA), (1, noteC), (0, noteB)] := by
  constructor
  · refine Relation.ReflTransGen.head
      (SchedStep.emit (schedInit schedRaceExample) pe0 noteA (by decide)
        (by decide)) ?_
    refine Relation.ReflTransGen.head
      (SchedStep.settleTimeout ⟨schedRaceExample, 0, 1, [], [(0, noteA)]⟩ pe0
        (by decide) (by decide)) ?_
    refine Relation.ReflTransGen.head
      (SchedStep.emit ⟨schedRaceExample, 1, 0, [(0, [noteB])], [(0, noteA)]⟩
        pe1 noteC (by decide) (by decide)) ?_
    refine Relation.ReflTransGen.head
      (SchedStep.settle
        ⟨schedRaceExample, 1, 1, [(0, [noteB])], [(0, noteA), (1, noteC)]⟩
        pe1 (by decide) (by decide)) ?_
    exact Relation.ReflTransGen.single
      (SchedStep.drain
        ⟨schedRaceExample, 2, 0, [(0, [noteB])], [(0, noteA), (1, noteC)]⟩
        [] [] 0 noteB [] rfl)
  · intro h
    rcases List.pairwise_cons.mp h with ⟨h1, h2⟩
    rcases List.pairwise_cons.mp h2 with ⟨h3, h4⟩
    exact absurd (h3 (0, noteB) (List.mem_cons_self _ _)) (by decide)

/-- C1 amended: prompt executions begin one at a time in strict submission
order and a failed execution never blocks the next — the chain always runs
to completion (drain-within-bound steps are genuine steps, and from the
initial state the fully drained final state is reachable, delivering the
in-order concatenation of per-prompt streams, which is sorted by prompt
index); in every reachable state, notifications are only ever delivered for
the currently active prompt or for already-settled prompts' residual
drains, never for a prompt that has not yet started; on every run in which
each final tail drain completes within the two-second race bound (no
`settleTimeout`), the delivered stream is sorted by prompt index — every
notification of prompt k before any of prompt k+1; and once every prompt
has settled and no residue remains, nothing further is delivered.  Only a
drain losing the two-second race can deliver a prompt's remaining
notifications after a later prompt's (the counterexample). -/
theorem prompts_serialize_amended (execs : List PromptExec) :
    (∀ s s' : SchedState, SchedStepNT s s' → SchedStep s s')
    ∧ SchedStepsNT (schedInit execs) (schedFinal execs)
    ∧ SchedSteps (schedInit execs) (schedFinal execs)
    ∧ (schedFinal execs).delivered = flatFrom 0 execs
    ∧ (schedFinal execs).current = execs.length
    ∧ List.Pairwise (fun a b : Nat × Notif => a.1 ≤ b.1)
        ((schedFinal execs).delivered)
    ∧ (∀ s, SchedStepsNT (schedInit execs) s →
        List.Pairwise (fun a b : Nat × Notif => a.1 ≤ b.1) s.delivered)
    ∧ (∀ s, SchedSteps (schedInit execs) s →
        (∀ p ∈ s.delivered, p.1 ≤ s.current)
        ∧ (∀ r ∈ s.residues, r.1 < s.current))
    ∧ (∀ s', ¬ SchedStep (schedFinal execs) s') := by
  have hrun : SchedStepsNT (schedInit execs) (schedFinal execs) := by
    have h := sched_run_all execs execs [] [] rfl
    simpa [schedInit, schedFinal] using h
  refine ⟨fun s s' h => schedStepNT_to_schedStep h, hrun,
    Relation.ReflTransGen.mono (fun s s' h => schedStepNT_to_schedStep h) hrun,
    rfl, rfl, flatFrom_pairwise 0 execs,
    fun s h => (schedStepsNT_ordered execs s h).2,
    schedSteps_active_bound execs, schedFinal_no_step execs⟩

/-- Witness for C1 (amended) on a two-prompt submission whose first
execution rejects: the fully drained run is reachable and its delivered
stream is sorted by prompt index. -/
theorem prompts_serialize_witness :
    SchedStepsNT (schedInit schedExample) (schedFinal schedExample)
    ∧ List.Pairwise (fun a b : Nat × Notif => a.1 ≤ b.1)
        ((schedFinal schedExample).delivered) :=
  ⟨(prompts_serialize_amended schedExample).2.1,
    (prompts_serialize_amended schedExample).2.2.2.2.2.2.1
      (schedFinal schedExample)
      (prompts_serialize_amended schedExample).2.1⟩

/-- C6 counterexample: after the result event made tool call `"x"` terminal
(`completed`), a later output-delta event for the same id makes the
translator emit another `tool_call_update` regressing the status to
`in_progress` — the claim's "no later event for the same id produces a
notification regressing it" is false on the code, which keeps the record
forever and does not guard post-terminal events. -/
theorem tool_status_regression_counterexample :
    statusesFor "x" (processEvents false initTools
      [Event.start ⟨some "x", some "read_file", none⟩ "f1",
       Event.result ⟨some "x", none, some "done".toList⟩ "f2",
       Event.delta ⟨some "x", none, some "more".toList⟩ StreamTag.stdout
         "f3"]).2
      = [Status.pending, Status.completed, Status.inProgress]
    ∧ ¬ List.Chain' (fun a b => statusRank a ≤ statusRank b)
        [Status.pending, Status.completed, Status.inProgress] := by
  constructor
  · decide
  · intro h
    rw [List.chain'_cons, List.chain'_cons] at h
    exact absurd h.2.1 (by decide)

/-- C6 amended: a tool call's status evolves monotonically along
pending → in_progress → {completed|failed} provided the result event is the
last event bearing the call's id and its start event the first — over any
event sequence `start; deltas*; result` for one id, the stream of statuses
reported for that id never regresses.  (After a terminal result the code
re-emits `in_progress` for a late delta: see the counterexample.) -/
theorem tool_status_monotone_when_result_last (ct : Bool) (st : SessTools)
    (x : String) (call : ToolCallRec) (f0 f1 : String) (ds : List Event)
    (rmsg : ToolMsg) (hcall : call.id = some x)
    (hds : ∀ e ∈ ds, ∃ m sg f, e = Event.delta m sg f ∧ m.tool_call_id = some x)
    (hr : rmsg.tool_call_id = some x) :
    List.Chain' (fun a b => statusRank a ≤ statusRank b)
      (statusesFor x (processEvents ct st
        (Event.start call f0 :: (ds ++ [Event.result rmsg f1]))).2) := by
  obtain ⟨hk1, s0, hs0, hrank0⟩ := start_statuses ct st call x f0 hcall
  obtain ⟨hk2, hmid⟩ := deltas_preserve ct x ds
    (handleToolCallStart ct st call f0).1 hds hk1
  obtain ⟨t, hts, hrankt⟩ := result_statuses
    (processEvents ct (handleToolCallStart ct st call f0).1 ds).1 rmsg f1 x
    hr hk2
  have hsplit : statusesFor x (processEvents ct st
      (Event.start call f0 :: (ds ++ [Event.result rmsg f1]))).2
      = s0 :: (statusesFor x (processEvents ct
          (handleToolCallStart ct st call f0).1 ds).2 ++ [t]) := by
    simp only [processEvents, handleEvent, processEvents_append,
      statusesFor_append, hs0, hts, List.append_nil, List.singleton_append]
  rw [hsplit]
  exact chain_shape _ s0 t hrank0 hmid (by rw [hrankt]; decide)

/-- Witness for C6 (amended) on a concrete `start; delta; result` run. -/
theorem tool_status_monotone_witness :
    (⟨some "y", some "run_command", none⟩ : ToolCallRec).id = some "y"
    ∧ List.Chain' (fun a b => statusRank a ≤ statusRank b)
        (statusesFor "y" (processEvents false initTools
          (Event.start ⟨some "y", some "run_command", none⟩ "g1"
            :: ([Event.delta ⟨some "y", none, some "out".toList⟩
                  StreamTag.stdout "g2"]
              ++ [Event.result ⟨some "y", none, some "ok".toList⟩ "g3"]))).2) :=
  ⟨rfl,
    tool_status_monotone_when_result_last false initTools "y"
      ⟨some "y", some "run_command", none⟩ "g1" "g3"
      [Event.delta ⟨some "y", none, some "out".toList⟩ StreamTag.stdout "g2"]
      ⟨some "y", none, some "ok".toList⟩ rfl
      (by
        intro e he
        rw [List.mem_singleton] at he
        exact ⟨⟨some "y", none, some "out".toList⟩, StreamTag.stdout, "g2",
          he, rfl⟩)
      rfl⟩

/-- Witness for C7: forking an unknown parent on the empty registry, and
forking session `"p"` of the concrete registry into `"n"`. -/
theorem fork_copies_witness :
    forkSession (⟨[], [], [], 0⟩ : Registry) "q" "/w" "n"
        = .error .unknownSession
    ∧ historyOf (forkResult forkExReg
          ⟨"/w", 0, 1, false, false, "default", "gpt", [], none⟩ "p" "/w2" "n")
        "n" = historyOf forkExReg "p" :=
  ⟨fork_copies_by_value.1 ⟨[], [], [], 0⟩ "q" "/w" "n" rfl,
    ((fork_copies_by_value.2 forkExReg
        ⟨"/w", 0, 1, false, false, "default", "gpt", [], none⟩ "p" "/w2" "n"
        regWF_forkEx (by decide) (by decide)).2.1).1⟩

/-- Witness for C5 (amended) on a poll observing one fresh matching index
entry. -/
theorem discovery_result_witness :
    (∃ obs ∈ [PollObservation.mk false [⟨"id1", "/w", "t"⟩] false []],
        ∃ e ∈ obs.indexSessions,
          List.contains [] e.id = false ∧ e.projectPath = "/w"
            ∧ "/h/sessions/id1/conversation.jsonl" = conversationPathOf "/h" e.id)
    ∨ (∃ obs ∈ [PollObservation.mk false [⟨"id1", "/w", "t"⟩] false []],
        obs.sessionsDirExists = true
        ∧ ∃ n ∈ obs.dirEntries, List.contains [] n = false
          ∧ "/h/sessions/id1/conversation.jsonl" = conversationPathOf "/h" n) :=
  (discovery_result_characterized "/h" "/w" []
    [⟨false, [⟨"id1", "/w", "t"⟩], false, []⟩]).1
    "/h/sessions/id1/conversation.jsonl" (by decide)

end AutohandAcp
